import Mathlib

/-!
Shallow embedding of the BuringChess rule engine and turn controller.

The repository holds two variants of `app/page.tsx`:
* `src/unnamed/part_001` (the newer one): mage starts on cooldown 2, may
  relocate while on cooldown, a capture relocates the acting piece onto the
  target square for every kind, and an end-of-turn decay pass
  (`decreaseMageCooldowns`) lowers every mage cooldown that is positive.
* `src/unnamed/part_000` (the older one): no decay pass, the mage cannot
  relocate, and a mage capture leaves the mage at its origin with cooldown 2
  while the target square is emptied.

Definitions for `part_001` carry the source names; the corresponding
definitions for `part_000` carry a `0` suffix.  Helper functions whose
source text is identical in the two files (`isValidPosition`,
`getBardBonus`, `canAssassinMove`, the spearman loop) are defined once and
shared.  JS `board[r][c]` lookups are modelled by `boardGet`, which yields
`none` off the 8×8 grid, and in-place array writes by `boardSet`.
-/

inductive PieceType where
  | king | warrior | defender | paladin | mage | spearman | archer | bard | assassin
deriving DecidableEq

inductive PieceColor where
  | white | black
deriving DecidableEq

/-- `interface Piece { type; color; state?: number }`; the optional
auxiliary integer (`undefined` in JS) is an `Option Nat`. -/
structure Piece where
  type : PieceType
  color : PieceColor
  state : Option Nat := none
deriving DecidableEq

/-- `type Board = (Piece | null)[][]`, row-major. -/
abbrev Board := List (List (Option Piece))

/-- `board[row][col]`: `none` when the indices fall outside the nested
arrays (JS `undefined`). -/
def boardGet (b : Board) (row col : Int) : Option Piece :=
  if 0 ≤ row ∧ 0 ≤ col then
    match b[row.toNat]? with
    | some r =>
      match r[col.toNat]? with
      | some cell => cell
      | none => none
    | none => none
  else none

/-- `newBoard[row][col] = v` on a row-major copy; a write outside the
allocated grid is a no-op (the engine only ever writes to squares that came
out of a move or attack list, which are always on the board). -/
def boardSet (b : Board) (row col : Int) (v : Option Piece) : Board :=
  if 0 ≤ row ∧ 0 ≤ col then
    match b[row.toNat]? with
    | some r => b.set row.toNat (r.set col.toNat v)
    | none => b
  else b

/-- The 8×8 shape invariant of every board the engine manipulates. -/
def BoardWF (b : Board) : Prop :=
  b.length = 8 ∧ ∀ r ∈ b, r.length = 8

instance : DecidablePred BoardWF := fun b =>
  inferInstanceAs (Decidable (b.length = 8 ∧ ∀ r ∈ b, r.length = 8))

/-- `isValidPosition` (identical in both variants). -/
def isValidPosition (row col : Int) : Bool :=
  0 ≤ row && row < 8 && 0 ≤ col && col < 8

/-- The `n` consecutive integers starting at `lo` (a `for` loop counter). -/
def intRange (lo : Int) (n : Nat) : List Int :=
  (List.range n).map (fun (i : Nat) => lo + (i : Int))

/-- The offsets visited by the nested loop
`for r in -range..range, for c in -range..range` with the
`if (r === 0 && c === 0) continue` skip. -/
def areaOffsets (range : Nat) : List (Int × Int) :=
  (intRange (-(range : Int)) (2 * range + 1)).flatMap (fun r =>
    (intRange (-(range : Int)) (2 * range + 1)).filterMap (fun c =>
      if r = 0 ∧ c = 0 then none else some (r, c)))

/-- The row-major enumeration `for r in 0..7, for c in 0..7`. -/
def allSquares : List (Int × Int) :=
  (intRange 0 8).flatMap (fun r => (intRange 0 8).map (fun c => (r, c)))

/-- `!target` — the square holds no piece. -/
def isEmptySquare (b : Board) (row col : Int) : Bool :=
  (boardGet b row col).isNone

/-- `target && target.color !== piece.color` — the square holds an enemy. -/
def isEnemy (b : Board) (row col : Int) (pc : PieceColor) : Bool :=
  match boardGet b row col with
  | some t => t.color != pc
  | none => false

/-- `piece.color === 'white' ? -1 : 1` (the `defenderDir` / `spearDir` /
`archerDir` ternary, identical at each use site). -/
def forwardDir (c : PieceColor) : Int :=
  if c == PieceColor.white then -1 else 1

/-- JS truthiness of the optional state: `piece.state && piece.state > 0`. -/
def statePos (st : Option Nat) : Bool :=
  match st with
  | some s => decide (0 < s)
  | none => false

/-- `getBardBonus` (identical in both variants): scans the clamped 3×3
neighborhood for a friendly bard; the mutable `bonus` accumulator is an
`any` over the visited squares. -/
def getBardBonus (b : Board) (row col : Int) (color : PieceColor) : Nat :=
  if ((intRange (max 0 (row - 1)) (min 7 (row + 1) + 1 - max 0 (row - 1)).toNat).any (fun r =>
      (intRange (max 0 (col - 1)) (min 7 (col + 1) + 1 - max 0 (col - 1)).toNat).any (fun c =>
        match boardGet b r c with
        | some p => p.type == PieceType.bard && p.color == color
        | none => false)))
  then 1 else 0

/-- `getQuadrant` inside `canAssassinMove` (identical in both variants). -/
def getQuadrant (row col : Int) : Nat :=
  if row < 4 ∧ col ≥ 4 then 1
  else if row < 4 ∧ col < 4 then 2
  else if row ≥ 4 ∧ col < 4 then 3
  else if row ≥ 4 ∧ col ≥ 4 then 4
  else 0

/-- `canAssassinMove` (identical in both variants). -/
def canAssassinMove (fromRow fromCol toRow toCol : Int) : Bool :=
  getQuadrant toRow toCol == (getQuadrant fromRow fromCol % 4) + 1

/-- The spearman movement loop
`for i in 1..spearRange: if valid then (if empty push else break)`:
fuel counts the remaining iterations, `i` is the loop counter. -/
def spearMoves (b : Board) (row col d : Int) : Nat → Int → List (Int × Int)
  | 0, _ => []
  | n + 1, i =>
    let newRow := row + d * i
    if isValidPosition newRow col then
      if isEmptySquare b newRow col then (newRow, col) :: spearMoves b row col d n (i + 1)
      else []
    else spearMoves b row col d n (i + 1)

/-- The shared area-move loop: every in-bounds empty square within Chebyshev
radius `range` of the origin, in loop order (used by the warrior, paladin,
mage and bard cases, whose inline loops are identical up to the radius). -/
def emptyArea (b : Board) (row col : Int) (range : Nat) : List (Int × Int) :=
  (areaOffsets range).filterMap (fun rc =>
    let newRow := row + rc.1
    let newCol := col + rc.2
    if isValidPosition newRow newCol && isEmptySquare b newRow newCol
    then some (newRow, newCol) else none)

/-- The shared area-attack loop: every in-bounds enemy square within
Chebyshev radius `range` (king, warrior, paladin attack cases). -/
def enemyArea (b : Board) (row col : Int) (range : Nat) (pc : PieceColor) : List (Int × Int) :=
  (areaOffsets range).filterMap (fun rc =>
    let newRow := row + rc.1
    let newCol := col + rc.2
    if isValidPosition newRow newCol && isEnemy b newRow newCol pc
    then some (newRow, newCol) else none)

/-- The `switch (piece.type)` body of `getValidMoves` in `part_001`, with
the `bardBonus` computed at the top of the function passed in explicitly. -/
def getValidMovesAux (b : Board) (row col : Int) (piece : Piece) (bonus : Nat) :
    List (Int × Int) :=
  match piece.type with
  | PieceType.king =>
    (areaOffsets 1).filterMap (fun rc =>
      let newRow := row + rc.1
      let newCol := col + rc.2
      if isValidPosition newRow newCol &&
          (isEmptySquare b newRow newCol || isEnemy b newRow newCol piece.color)
      then some (newRow, newCol) else none)
  | PieceType.defender =>
    (intRange (-1) 3).filterMap (fun c =>
      let newRow := row + forwardDir piece.color
      let newCol := col + c
      if isValidPosition newRow newCol && isEmptySquare b newRow newCol
      then some (newRow, newCol) else none)
  | PieceType.warrior =>
    if piece.state = some 0 then emptyArea b row col (1 + bonus) else []
  | PieceType.paladin => emptyArea b row col (2 + bonus)
  | PieceType.mage =>
    if statePos piece.state then emptyArea b row col (1 + bonus) else []
  | PieceType.spearman =>
    spearMoves b row col (forwardDir piece.color) (3 + bonus) 1
  | PieceType.archer => []
  | PieceType.bard => emptyArea b row col (1 + bonus)
  | PieceType.assassin =>
    allSquares.filterMap (fun rc =>
      if rc.1 = row ∧ rc.2 = col then none
      else if canAssassinMove row col rc.1 rc.2 && isEmptySquare b rc.1 rc.2
      then some rc else none)

/-- `getValidMoves` of `part_001`. -/
def getValidMoves (b : Board) (row col : Int) : List (Int × Int) :=
  match boardGet b row col with
  | none => []
  | some piece => getValidMovesAux b row col piece (getBardBonus b row col piece.color)

/-- The `switch (piece.type)` body of `getValidMoves` in `part_000`: the
only difference from `part_001` is the mage case, which is an empty
`break` (the older mage can never relocate). -/
def getValidMovesAux0 (b : Board) (row col : Int) (piece : Piece) (bonus : Nat) :
    List (Int × Int) :=
  match piece.type with
  | PieceType.king =>
    (areaOffsets 1).filterMap (fun rc =>
      let newRow := row + rc.1
      let newCol := col + rc.2
      if isValidPosition newRow newCol &&
          (isEmptySquare b newRow newCol || isEnemy b newRow newCol piece.color)
      then some (newRow, newCol) else none)
  | PieceType.defender =>
    (intRange (-1) 3).filterMap (fun c =>
      let newRow := row + forwardDir piece.color
      let newCol := col + c
      if isValidPosition newRow newCol && isEmptySquare b newRow newCol
      then some (newRow, newCol) else none)
  | PieceType.warrior =>
    if piece.state = some 0 then emptyArea b row col (1 + bonus) else []
  | PieceType.paladin => emptyArea b row col (2 + bonus)
  | PieceType.mage => []
  | PieceType.spearman =>
    spearMoves b row col (forwardDir piece.color) (3 + bonus) 1
  | PieceType.archer => []
  | PieceType.bard => emptyArea b row col (1 + bonus)
  | PieceType.assassin =>
    allSquares.filterMap (fun rc =>
      if rc.1 = row ∧ rc.2 = col then none
      else if canAssassinMove row col rc.1 rc.2 && isEmptySquare b rc.1 rc.2
      then some rc else none)

/-- `getValidMoves` of `part_000`. -/
def getValidMoves0 (b : Board) (row col : Int) : List (Int × Int) :=
  match boardGet b row col with
  | none => []
  | some piece => getValidMovesAux0 b row col piece (getBardBonus b row col piece.color)

/-- `getAttackRange` of `part_001`.  The archer case renders the exact
float test `Math.sqrt(rowDiff² + colDiff²) <= 4` as `rowDiff² + colDiff² ≤ 16`,
which coincides with it on integer offsets since `Math.abs` squared is the
plain square and `sqrt` is monotone and exact at 16. -/
def getAttackRange (b : Board) (row col : Int) : List (Int × Int) :=
  match boardGet b row col with
  | none => []
  | some piece =>
    match piece.type with
    | PieceType.king => enemyArea b row col 1 piece.color
    | PieceType.defender =>
      (intRange (-1) 3).filterMap (fun c =>
        let newRow := row + forwardDir piece.color
        let newCol := col + c
        if isValidPosition newRow newCol && isEnemy b newRow newCol piece.color
        then some (newRow, newCol) else none)
    | PieceType.warrior =>
      if piece.state = some 1 then enemyArea b row col 1 piece.color
      else if piece.state = some 2 then enemyArea b row col 2 piece.color
      else []
    | PieceType.paladin => enemyArea b row col 2 piece.color
    | PieceType.mage =>
      if statePos piece.state then []
      else
        ((intRange 0 8).filterMap (fun c =>
          if c != col && isEnemy b row c piece.color then some (row, c) else none)) ++
        ((intRange 0 8).filterMap (fun r =>
          if r != row && isEnemy b r col piece.color then some (r, col) else none))
    | PieceType.spearman =>
      let targetRow := row + forwardDir piece.color * 3
      if isValidPosition targetRow col && isEnemy b targetRow col piece.color
      then [(targetRow, col)] else []
    | PieceType.archer =>
      allSquares.filterMap (fun rc =>
        let rowDiff := (rc.1 - row) * forwardDir piece.color
        let colDiff := rc.2 - col
        if 0 < rowDiff ∧ rowDiff * rowDiff + colDiff * colDiff ≤ 16 then
          if isEnemy b rc.1 rc.2 piece.color then some rc else none
        else none)
    | PieceType.bard => []
    | PieceType.assassin =>
      allSquares.filterMap (fun rc =>
        if rc.1 = row ∧ rc.2 = col then none
        else if canAssassinMove row col rc.1 rc.2 && isEnemy b rc.1 rc.2 piece.color
        then some rc else none)

/-- `getAttackRange` of `part_000` (its source text is identical to the
`part_001` one). -/
def getAttackRange0 (b : Board) (row col : Int) : List (Int × Int) :=
  match boardGet b row col with
  | none => []
  | some piece =>
    match piece.type with
    | PieceType.king => enemyArea b row col 1 piece.color
    | PieceType.defender =>
      (intRange (-1) 3).filterMap (fun c =>
        let newRow := row + forwardDir piece.color
        let newCol := col + c
        if isValidPosition newRow newCol && isEnemy b newRow newCol piece.color
        then some (newRow, newCol) else none)
    | PieceType.warrior =>
      if piece.state = some 1 then enemyArea b row col 1 piece.color
      else if piece.state = some 2 then enemyArea b row col 2 piece.color
      else []
    | PieceType.paladin => enemyArea b row col 2 piece.color
    | PieceType.mage =>
      if statePos piece.state then []
      else
        ((intRange 0 8).filterMap (fun c =>
          if c != col && isEnemy b row c piece.color then some (row, c) else none)) ++
        ((intRange 0 8).filterMap (fun r =>
          if r != row && isEnemy b r col piece.color then some (r, col) else none))
    | PieceType.spearman =>
      let targetRow := row + forwardDir piece.color * 3
      if isValidPosition targetRow col && isEnemy b targetRow col piece.color
      then [(targetRow, col)] else []
    | PieceType.archer =>
      allSquares.filterMap (fun rc =>
        let rowDiff := (rc.1 - row) * forwardDir piece.color
        let colDiff := rc.2 - col
        if 0 < rowDiff ∧ rowDiff * rowDiff + colDiff * colDiff ≤ 16 then
          if isEnemy b rc.1 rc.2 piece.color then some rc else none
        else none)
    | PieceType.bard => []
    | PieceType.assassin =>
      allSquares.filterMap (fun rc =>
        if rc.1 = row ∧ rc.2 = col then none
        else if canAssassinMove row col rc.1 rc.2 && isEnemy b rc.1 rc.2 piece.color
        then some rc else none)

/-- The per-cell action of `decreaseMageCooldowns` (`part_001`): a mage with
a positive cooldown loses one point of it, every other cell is unchanged. -/
def decayCell (cell : Option Piece) : Option Piece :=
  match cell with
  | some p =>
    match p.state with
    | some s =>
      if p.type == PieceType.mage && 0 < s
      then some { p with state := some (s - 1) }
      else some p
    | none => some p
  | none => none

/-- `decreaseMageCooldowns` of `part_001` (absent from `part_000`). -/
def decreaseMageCooldowns (b : Board) : Board :=
  b.map (fun row => row.map decayCell)

/-- The session state a click handler reads and writes: the board, the
cached selection with its move and attack lists, the active color and the
terminal result (the multiplayer socket plumbing is outside the engine). -/
structure GameState where
  board : Board
  selectedSquare : Option (Int × Int)
  currentPlayer : PieceColor
  validMoves : List (Int × Int)
  attackRanges : List (Int × Int)
  gameOver : Option String
deriving DecidableEq

/-- `piece.color === 'white' ? '백' : '흑'`. -/
def winnerName (c : PieceColor) : String :=
  if c == PieceColor.white then "백" else "흑"

/-- `currentPlayer === 'white' ? 'black' : 'white'`. -/
def nextPlayer (c : PieceColor) : PieceColor :=
  if c == PieceColor.white then PieceColor.black else PieceColor.white

/-- `attacks.some(([r, c]) => r === row && c === col)` on a cached list. -/
def hitsSquare (l : List (Int × Int)) (row col : Int) : Bool :=
  l.any (fun rc => rc.1 == row && rc.2 == col)

/-- `handleSquareClick` of `part_001` (the local-game path: the game-over
guard, the selected/idle dispatch, capture with king detection, the
mage/warrior state updates, the decay pass and the color flip; socket
emission and the multiplayer turn guard are outside the model). -/
def handleSquareClick (s : GameState) (row col : Int) : GameState :=
  if s.gameOver.isSome then s
  else
    match s.selectedSquare with
    | some fromSq =>
      let afterAction : GameState :=
        match boardGet s.board fromSq.1 fromSq.2 with
        | some piece =>
          if piece.color == s.currentPlayer then
            if hitsSquare s.attackRanges row col then
              match boardGet s.board row col with
              | some target =>
                if target.color != piece.color then
                  let gOver :=
                    if target.type == PieceType.king
                    then some (winnerName piece.color ++ " 승리!")
                    else s.gameOver
                  let b1 := boardSet s.board row col (some piece)
                  let b2 := boardSet b1 fromSq.1 fromSq.2 none
                  let b3 :=
                    if piece.type == PieceType.mage then
                      boardSet b2 row col (some { piece with state := some 2 })
                    else if piece.type == PieceType.warrior then
                      boardSet b2 row col
                        (some { piece with state := some ((piece.state.getD 0 + 1) % 3) })
                    else b2
                  let b4 := decreaseMageCooldowns b3
                  { s with board := b4, currentPlayer := nextPlayer s.currentPlayer,
                           gameOver := gOver }
                else s
              | none => s
            else if hitsSquare s.validMoves row col then
              let b1 := boardSet s.board row col (some piece)
              let b2 := boardSet b1 fromSq.1 fromSq.2 none
              let b3 :=
                if piece.type == PieceType.warrior then
                  boardSet b2 row col
                    (some { piece with state := some ((piece.state.getD 0 + 1) % 3) })
                else b2
              let b4 := decreaseMageCooldowns b3
              { s with board := b4, currentPlayer := nextPlayer s.currentPlayer }
            else s
          else s
        | none => s
      { afterAction with selectedSquare := none, validMoves := [], attackRanges := [] }
    | none =>
      match boardGet s.board row col with
      | some piece =>
        if piece.color == s.currentPlayer then
          { s with selectedSquare := some (row, col),
                   validMoves := getValidMoves s.board row col,
                   attackRanges := getAttackRange s.board row col }
        else s
      | none => s

/-- `handleSquareClick` of `part_000`: no decay pass, and a mage capture
overwrites the generic relocation, putting the mage back on its origin with
cooldown 2 and emptying the target square. -/
def handleSquareClick0 (s : GameState) (row col : Int) : GameState :=
  if s.gameOver.isSome then s
  else
    match s.selectedSquare with
    | some fromSq =>
      let afterAction : GameState :=
        match boardGet s.board fromSq.1 fromSq.2 with
        | some piece =>
          if piece.color == s.currentPlayer then
            if hitsSquare s.attackRanges row col then
              match boardGet s.board row col with
              | some target =>
                if target.color != piece.color then
                  let gOver :=
                    if target.type == PieceType.king
                    then some (winnerName piece.color ++ " 승리!")
                    else s.gameOver
                  let b1 := boardSet s.board row col (some piece)
                  let b2 := boardSet b1 fromSq.1 fromSq.2 none
                  let b3 :=
                    if piece.type == PieceType.mage then
                      boardSet (boardSet b2 fromSq.1 fromSq.2
                        (some { piece with state := some 2 })) row col none
                    else if piece.type == PieceType.warrior then
                      boardSet b2 row col
                        (some { piece with state := some ((piece.state.getD 0 + 1) % 3) })
                    else b2
                  { s with board := b3, currentPlayer := nextPlayer s.currentPlayer,
                           gameOver := gOver }
                else s
              | none => s
            else if hitsSquare s.validMoves row col then
              let b1 := boardSet s.board row col (some piece)
              let b2 := boardSet b1 fromSq.1 fromSq.2 none
              let b3 :=
                if piece.type == PieceType.warrior then
                  boardSet b2 row col
                    (some { piece with state := some ((piece.state.getD 0 + 1) % 3) })
                else b2
              { s with board := b3, currentPlayer := nextPlayer s.currentPlayer }
            else s
          else s
        | none => s
      { afterAction with selectedSquare := none, validMoves := [], attackRanges := [] }
    | none =>
      match boardGet s.board row col with
      | some piece =>
        if piece.color == s.currentPlayer then
          { s with selectedSquare := some (row, col),
                   validMoves := getValidMoves0 s.board row col,
                   attackRanges := getAttackRange0 s.board row col }
        else s
      | none => s

/-! ### Concrete fixtures used to instantiate the theorems -/

/-- A row of eight empty squares. -/
def rowOfNones : List (Option Piece) :=
  [none, none, none, none, none, none, none, none]

/-- The empty 8x8 board. -/
def emptyBoard : Board :=
  [rowOfNones, rowOfNones, rowOfNones, rowOfNones,
   rowOfNones, rowOfNones, rowOfNones, rowOfNones]

/-- A white king at (4,4) and a black defender at (3,3). -/
def kingBoard : Board :=
  boardSet (boardSet emptyBoard 4 4
    (some { type := PieceType.king, color := PieceColor.white })) 3 3
    (some { type := PieceType.defender, color := PieceColor.black })

/-- A white mage, ready to strike (cooldown 0), at (4,4); a black defender
on its row at (4,0); a black king at (0,7). -/
def mageBoard : Board :=
  boardSet (boardSet (boardSet emptyBoard 4 4
    (some { type := PieceType.mage, color := PieceColor.white, state := some 0 })) 4 0
    (some { type := PieceType.defender, color := PieceColor.black })) 0 7
    (some { type := PieceType.king, color := PieceColor.black })

/-- A fresh idle session on `mageBoard`, white to act. -/
def mageSession : GameState :=
  { board := mageBoard, selectedSquare := none, currentPlayer := PieceColor.white,
    validMoves := [], attackRanges := [], gameOver := none }

/-- A white warrior in striking stance 1 at (4,4) and a black defender at
(4,5); a black king at (0,7). -/
def warriorBoard : Board :=
  boardSet (boardSet (boardSet emptyBoard 4 4
    (some { type := PieceType.warrior, color := PieceColor.white, state := some 1 })) 4 5
    (some { type := PieceType.defender, color := PieceColor.black })) 0 7
    (some { type := PieceType.king, color := PieceColor.black })

/-- A fresh idle session on `warriorBoard`, white to act. -/
def warriorSession : GameState :=
  { board := warriorBoard, selectedSquare := none, currentPlayer := PieceColor.white,
    validMoves := [], attackRanges := [], gameOver := none }

/-- A white king at (4,4) next to the black king at (4,5). -/
def kingCaptureBoard : Board :=
  boardSet (boardSet emptyBoard 4 4
    (some { type := PieceType.king, color := PieceColor.white })) 4 5
    (some { type := PieceType.king, color := PieceColor.black })

/-- A fresh idle session on `kingCaptureBoard`, white to act. -/
def kingCaptureSession : GameState :=
  { board := kingCaptureBoard, selectedSquare := none, currentPlayer := PieceColor.white,
    validMoves := [], attackRanges := [], gameOver := none }

/-- A white spearman at (6,3) on an otherwise empty board. -/
def spearBoard : Board :=
  boardSet emptyBoard 6 3 (some { type := PieceType.spearman, color := PieceColor.white })

/-- A white assassin at (7,7) on an otherwise empty board. -/
def assassinBoard : Board :=
  boardSet emptyBoard 7 7 (some { type := PieceType.assassin, color := PieceColor.white })

/-! ### Basic lemmas about the enumeration helpers and the board model -/

theorem mem_intRange {lo : Int} {n : Nat} {x : Int} :
    x ∈ intRange lo n ↔ lo ≤ x ∧ x < lo + n := by
  unfold intRange
  simp only [List.mem_map, List.mem_range]
  constructor
  · rintro ⟨i, hi, rfl⟩
    omega
  · rintro ⟨h1, h2⟩
    exact ⟨(x - lo).toNat, by omega, by omega⟩

theorem mem_areaOffsets {range : Nat} {rc : Int × Int} :
    rc ∈ areaOffsets range ↔
      -(range : Int) ≤ rc.1 ∧ rc.1 ≤ range ∧ -(range : Int) ≤ rc.2 ∧ rc.2 ≤ range ∧
        ¬(rc.1 = 0 ∧ rc.2 = 0) := by
  unfold areaOffsets
  simp only [List.mem_flatMap, List.mem_filterMap, mem_intRange]
  constructor
  · rintro ⟨r, hr, c, hc, h⟩
    by_cases h0 : r = 0 ∧ c = 0
    · simp [h0] at h
    · rw [if_neg h0] at h
      cases h
      simp only
      omega
  · rintro ⟨h1, h2, h3, h4, h5⟩
    refine ⟨rc.1, by omega, rc.2, by omega, ?_⟩
    rw [if_neg h5]

theorem mem_allSquares {rc : Int × Int} :
    rc ∈ allSquares ↔ 0 ≤ rc.1 ∧ rc.1 < 8 ∧ 0 ≤ rc.2 ∧ rc.2 < 8 := by
  unfold allSquares
  simp only [List.mem_flatMap, List.mem_map, mem_intRange]
  constructor
  · rintro ⟨r, hr, c, hc, rfl⟩
    simp only
    omega
  · rintro ⟨h1, h2, h3, h4⟩
    exact ⟨rc.1, by omega, rc.2, by omega, rfl⟩

theorem isEmptySquare_iff {b : Board} {row col : Int} :
    isEmptySquare b row col = true ↔ boardGet b row col = none := by
  unfold isEmptySquare
  cases boardGet b row col <;> simp

theorem isEnemy_iff {b : Board} {row col : Int} {pc : PieceColor} :
    isEnemy b row col pc = true ↔
      ∃ t, boardGet b row col = some t ∧ t.color ≠ pc := by
  unfold isEnemy
  cases h : boardGet b row col with
  | none => simp
  | some t => simp [bne_iff_ne]

theorem isValidPosition_iff {row col : Int} :
    isValidPosition row col = true ↔ 0 ≤ row ∧ row < 8 ∧ 0 ≤ col ∧ col < 8 := by
  unfold isValidPosition
  simp only [Bool.and_eq_true, decide_eq_true_eq]
  omega

theorem hitsSquare_iff {l : List (Int × Int)} {row col : Int} :
    hitsSquare l row col = true ↔ (row, col) ∈ l := by
  unfold hitsSquare
  simp only [List.any_eq_true, Bool.and_eq_true, beq_iff_eq]
  constructor
  · rintro ⟨rc, hrc, h1, h2⟩
    obtain ⟨r, c⟩ := rc
    simp only at h1 h2
    subst h1; subst h2
    exact hrc
  · intro h
    exact ⟨(row, col), h, rfl, rfl⟩


theorem boardGet_isSome_bounds {b : Board} {row col : Int} {p : Piece}
    (hwf : BoardWF b) (h : boardGet b row col = some p) :
    0 ≤ row ∧ row < 8 ∧ 0 ≤ col ∧ col < 8 := by
  unfold boardGet at h
  split at h
  · rename_i hpos
    cases hrow : b[row.toNat]? with
    | none => rw [hrow] at h; exact Option.noConfusion h
    | some rw =>
      rw [hrow] at h
      dsimp only at h
      cases hcol : rw[col.toNat]? with
      | none => rw [hcol] at h; exact Option.noConfusion h
      | some cell =>
        have hr8 : row.toNat < b.length := (List.getElem?_eq_some_iff.mp hrow).1
        have hc8 : col.toNat < rw.length := (List.getElem?_eq_some_iff.mp hcol).1
        have hrl : rw ∈ b := by
          obtain ⟨hlt, hget⟩ := List.getElem?_eq_some_iff.mp hrow
          exact hget ▸ List.getElem_mem hlt
        have h2 := hwf.2 rw hrl
        have h1 := hwf.1
        omega
  · exact Option.noConfusion h

theorem boardGet_boardSet_ne (b : Board) {row col row' col' : Int} (v : Option Piece)
    (h : ¬(row' = row ∧ col' = col)) :
    boardGet (boardSet b row col v) row' col' = boardGet b row' col' := by
  unfold boardSet
  split
  · rename_i hpos
    cases hrow : b[row.toNat]? with
    | none => rfl
    | some rw =>
      unfold boardGet
      split
      · rename_i hpos'
        rw [List.getElem?_set]
        by_cases hr : row.toNat = row'.toNat
        · have hre : row' = row := by omega
          have hce : col.toNat ≠ col'.toNat := by
            intro hceq
            exact h ⟨hre, by omega⟩
          rw [if_pos hr]
          rw [if_pos ((List.getElem?_eq_some_iff.mp hrow).1)]
          rw [← hr, hrow]
          dsimp only
          rw [List.getElem?_set, if_neg hce]
        · rw [if_neg hr]
      · rfl
  · rfl

theorem boardGet_boardSet_self {b : Board} {row col : Int} (v : Option Piece)
    (hwf : BoardWF b) (hr0 : 0 ≤ row) (hr8 : row < 8) (hc0 : 0 ≤ col) (hc8 : col < 8) :
    boardGet (boardSet b row col v) row col = v := by
  have hrlt : row.toNat < b.length := by
    have := hwf.1
    omega
  unfold boardSet boardGet
  rw [if_pos ⟨hr0, hc0⟩]
  cases hrow : b[row.toNat]? with
  | none =>
    exfalso
    rw [List.getElem?_eq_none_iff] at hrow
    omega
  | some rw =>
    have hlen : rw.length = 8 := by
      apply hwf.2
      obtain ⟨hlt, he⟩ := List.getElem?_eq_some_iff.mp hrow
      exact he ▸ List.getElem_mem hlt
    dsimp only
    rw [if_pos ⟨hr0, hc0⟩]
    rw [List.getElem?_set, if_pos rfl, if_pos hrlt]
    dsimp only
    rw [List.getElem?_set, if_pos rfl, if_pos (by omega)]

theorem boardWF_boardSet {b : Board} (row col : Int) (v : Option Piece)
    (hwf : BoardWF b) : BoardWF (boardSet b row col v) := by
  unfold boardSet
  split
  · split
    · rename_i rw hrow
      constructor
      · rw [List.length_set]
        exact hwf.1
      · intro r hr
        rcases List.mem_or_eq_of_mem_set hr with hmem | heq
        · exact hwf.2 r hmem
        · subst heq
          rw [List.length_set]
          apply hwf.2
          obtain ⟨hlt, he⟩ := List.getElem?_eq_some_iff.mp hrow
          exact he ▸ List.getElem_mem hlt
    · exact hwf
  · exact hwf

theorem boardGet_decreaseMageCooldowns (b : Board) (row col : Int) :
    boardGet (decreaseMageCooldowns b) row col = decayCell (boardGet b row col) := by
  unfold decreaseMageCooldowns boardGet
  split
  · rw [List.getElem?_map]
    cases b[row.toNat]? with
    | none => rfl
    | some rw =>
      dsimp only [Option.map_some']
      rw [List.getElem?_map]
      cases rw[col.toNat]? with
      | none => rfl
      | some cell => rfl
  · rfl

theorem boardWF_decreaseMageCooldowns {b : Board} (hwf : BoardWF b) :
    BoardWF (decreaseMageCooldowns b) := by
  unfold decreaseMageCooldowns
  constructor
  · rw [List.length_map]
    exact hwf.1
  · intro r hr
    obtain ⟨r0, hr0, rfl⟩ := List.mem_map.mp hr
    rw [List.length_map]
    exact hwf.2 r0 hr0

theorem decayCell_of_ne_mage {p : Piece} (h : p.type ≠ PieceType.mage) :
    decayCell (some p) = some p := by
  have hb : (p.type == PieceType.mage) = false := beq_eq_false_iff_ne.mpr h
  cases hs : p.state with
  | none => simp [decayCell, hs]
  | some s => simp [decayCell, hs, hb]

theorem mem_emptyArea {b : Board} {row col : Int} {range : Nat} {r c : Int}
    (h : (r, c) ∈ emptyArea b row col range) :
    isValidPosition r c = true ∧ boardGet b r c = none ∧ ¬(r = row ∧ c = col) := by
  unfold emptyArea at h
  obtain ⟨rc, hrc, heq⟩ := List.mem_filterMap.mp h
  dsimp only at heq
  split at heq
  · rename_i hcond
    rw [Bool.and_eq_true] at hcond
    obtain ⟨hval, hemp⟩ := hcond
    simp only [Option.some.injEq, Prod.mk.injEq] at heq
    obtain ⟨h1, h2⟩ := heq
    have hoff := mem_areaOffsets.mp hrc
    refine ⟨h1 ▸ h2 ▸ hval, h1 ▸ h2 ▸ isEmptySquare_iff.mp hemp, ?_⟩
    rintro ⟨hr, hc⟩
    exact hoff.2.2.2.2 ⟨by omega, by omega⟩
  · exact Option.noConfusion heq

theorem mem_enemyArea {b : Board} {row col : Int} {range : Nat} {pc : PieceColor} {r c : Int}
    (h : (r, c) ∈ enemyArea b row col range pc) :
    isValidPosition r c = true ∧ (∃ t, boardGet b r c = some t ∧ t.color ≠ pc) ∧
      ¬(r = row ∧ c = col) := by
  unfold enemyArea at h
  obtain ⟨rc, hrc, heq⟩ := List.mem_filterMap.mp h
  dsimp only at heq
  split at heq
  · rename_i hcond
    rw [Bool.and_eq_true] at hcond
    obtain ⟨hval, hen⟩ := hcond
    simp only [Option.some.injEq, Prod.mk.injEq] at heq
    obtain ⟨h1, h2⟩ := heq
    have hoff := mem_areaOffsets.mp hrc
    refine ⟨h1 ▸ h2 ▸ hval, h1 ▸ h2 ▸ isEnemy_iff.mp hen, ?_⟩
    rintro ⟨hr, hc⟩
    exact hoff.2.2.2.2 ⟨by omega, by omega⟩
  · exact Option.noConfusion heq

/-- Exact characterization of the spearman loop: the square of iteration
`i` is produced exactly when it is on the board and empty and no earlier
iteration hit an on-board occupied square (which would `break`). -/
theorem spearMoves_mem (b : Board) (row col d : Int) :
    ∀ (n : Nat) (i0 r c : Int),
      ((r, c) ∈ spearMoves b row col d n i0 ↔
        ∃ i : Int, i0 ≤ i ∧ i < i0 + n ∧ r = row + d * i ∧ c = col ∧
          isValidPosition (row + d * i) col = true ∧
          boardGet b (row + d * i) col = none ∧
          ∀ j : Int, i0 ≤ j → j < i →
            isValidPosition (row + d * j) col = true →
            boardGet b (row + d * j) col = none) := by
  intro n
  induction n with
  | zero =>
    intro i0 r c
    simp only [spearMoves, List.not_mem_nil, false_iff]
    rintro ⟨i, h1, h2, _⟩
    omega
  | succ m ih =>
    intro i0 r c
    unfold spearMoves
    dsimp only
    by_cases hval : isValidPosition (row + d * i0) col = true
    · rw [if_pos hval]
      by_cases hemp : isEmptySquare b (row + d * i0) col = true
      · rw [if_pos hemp, List.mem_cons, ih (i0 + 1) r c]
        have hempty := isEmptySquare_iff.mp hemp
        constructor
        · rintro (heq | ⟨i, h1, h2, h3, h4, h5, h6, h7⟩)
          · obtain ⟨h1, h2⟩ := Prod.mk.injEq .. ▸ heq
            exact ⟨i0, le_rfl, by omega, h1, h2, hval, hempty,
              fun j hj1 hj2 => absurd hj2 (by omega)⟩
          · refine ⟨i, by omega, by omega, h3, h4, h5, h6, ?_⟩
            intro j hj1 hj2 hjv
            by_cases hji : j = i0
            · exact hji ▸ hempty
            · exact h7 j (by omega) hj2 hjv
        · rintro ⟨i, h1, h2, h3, h4, h5, h6, h7⟩
          by_cases hi : i = i0
          · left
            subst hi
            rw [h3, h4]
          · right
            exact ⟨i, by omega, by omega, h3, h4, h5, h6,
              fun j hj1 hj2 => h7 j (by omega) hj2⟩
      · rw [if_neg hemp]
        simp only [List.not_mem_nil, false_iff]
        rintro ⟨i, h1, h2, h3, h4, h5, h6, h7⟩
        apply hemp
        apply isEmptySquare_iff.mpr
        by_cases hi : i = i0
        · exact hi ▸ h6
        · exact h7 i0 le_rfl (by omega) hval
    · rw [if_neg hval, ih (i0 + 1) r c]
      constructor
      · rintro ⟨i, h1, h2, h3, h4, h5, h6, h7⟩
        refine ⟨i, by omega, by omega, h3, h4, h5, h6, ?_⟩
        intro j hj1 hj2 hjv
        by_cases hji : j = i0
        · exact absurd (hji ▸ hjv) hval
        · exact h7 j (by omega) hj2 hjv
      · rintro ⟨i, h1, h2, h3, h4, h5, h6, h7⟩
        by_cases hi : i = i0
        · exact absurd (hi ▸ h5) hval
        · exact ⟨i, by omega, by omega, h3, h4, h5, h6,
            fun j hj1 hj2 => h7 j (by omega) hj2⟩

theorem getQuadrant_range (row col : Int) :
    1 ≤ getQuadrant row col ∧ getQuadrant row col ≤ 4 := by
  unfold getQuadrant
  split_ifs <;> omega

theorem getQuadrant_succ_ne_self (row col : Int) :
    (getQuadrant row col % 4) + 1 ≠ getQuadrant row col := by
  have h := getQuadrant_range row col
  omega

theorem forwardDir_cases (c : PieceColor) : forwardDir c = -1 ∨ forwardDir c = 1 := by
  cases c <;> simp [forwardDir]

/-- C2: for every board and every position, the move set returned by
`getValidMoves` never contains the origin square, never contains an
off-board square, and never contains an occupied square — except that a
king's move set may contain squares occupied by enemy pieces. -/
theorem C2_getValidMoves_targets (b : Board) (row col r c : Int)
    (h : (r, c) ∈ getValidMoves b row col) :
    ¬(r = row ∧ c = col) ∧ isValidPosition r c = true ∧
      (boardGet b r c = none ∨
        ∃ p, boardGet b row col = some p ∧ p.type = PieceType.king ∧
          ∃ t, boardGet b r c = some t ∧ t.color ≠ p.color) := by
  unfold getValidMoves at h
  cases hp : boardGet b row col with
  | none =>
    rw [hp] at h
    exact absurd h (List.not_mem_nil _)
  | some piece =>
    rw [hp] at h
    dsimp only at h
    obtain ⟨pt, pcol, pst⟩ := piece
    cases pt with
    | king =>
      dsimp only [getValidMovesAux] at h
      obtain ⟨rc, hrc, heq⟩ := List.mem_filterMap.mp h
      split at heq
      · rename_i hcond
        simp only [Option.some.injEq, Prod.mk.injEq] at heq
        obtain ⟨h1, h2⟩ := heq
        rw [Bool.and_eq_true] at hcond
        obtain ⟨hval, hoe⟩ := hcond
        have hoff := mem_areaOffsets.mp hrc
        refine ⟨?_, h1 ▸ h2 ▸ hval, ?_⟩
        · rintro ⟨hr, hc⟩
          exact hoff.2.2.2.2 ⟨by omega, by omega⟩
        · rw [Bool.or_eq_true] at hoe
          rcases hoe with hemp | hen
          · exact Or.inl (h1 ▸ h2 ▸ isEmptySquare_iff.mp hemp)
          · obtain ⟨t, ht, htc⟩ := isEnemy_iff.mp hen
            exact Or.inr ⟨⟨PieceType.king, pcol, pst⟩, rfl, rfl, t, h1 ▸ h2 ▸ ht, htc⟩
      · exact Option.noConfusion heq
    | defender =>
      dsimp only [getValidMovesAux] at h
      obtain ⟨cc, hcc, heq⟩ := List.mem_filterMap.mp h
      split at heq
      · rename_i hcond
        simp only [Option.some.injEq, Prod.mk.injEq] at heq
        obtain ⟨h1, h2⟩ := heq
        rw [Bool.and_eq_true] at hcond
        obtain ⟨hval, hemp⟩ := hcond
        refine ⟨?_, h1 ▸ h2 ▸ hval, Or.inl (h1 ▸ h2 ▸ isEmptySquare_iff.mp hemp)⟩
        rintro ⟨hr, hc⟩
        rcases forwardDir_cases pcol with hd | hd <;> (rw [hd] at h1; omega)
      · exact Option.noConfusion heq
    | warrior =>
      dsimp only [getValidMovesAux] at h
      split at h
      · obtain ⟨hval, hemp, hne⟩ := mem_emptyArea h
        exact ⟨hne, hval, Or.inl hemp⟩
      · exact absurd h (List.not_mem_nil _)
    | paladin =>
      dsimp only [getValidMovesAux] at h
      obtain ⟨hval, hemp, hne⟩ := mem_emptyArea h
      exact ⟨hne, hval, Or.inl hemp⟩
    | mage =>
      dsimp only [getValidMovesAux] at h
      split at h
      · obtain ⟨hval, hemp, hne⟩ := mem_emptyArea h
        exact ⟨hne, hval, Or.inl hemp⟩
      · exact absurd h (List.not_mem_nil _)
    | spearman =>
      dsimp only [getValidMovesAux] at h
      rw [spearMoves_mem] at h
      obtain ⟨i, h1, h2, h3, h4, h5, h6, h7⟩ := h
      subst h3
      subst h4
      refine ⟨?_, h5, Or.inl h6⟩
      rintro ⟨hr, hc⟩
      rcases forwardDir_cases pcol with hd | hd <;> (rw [hd] at hr; omega)
    | archer =>
      dsimp only [getValidMovesAux] at h
      exact absurd h (List.not_mem_nil _)
    | bard =>
      dsimp only [getValidMovesAux] at h
      obtain ⟨hval, hemp, hne⟩ := mem_emptyArea h
      exact ⟨hne, hval, Or.inl hemp⟩
    | assassin =>
      dsimp only [getValidMovesAux] at h
      obtain ⟨rc, hrc, heq⟩ := List.mem_filterMap.mp h
      split at heq
      · exact Option.noConfusion heq
      · rename_i hne
        split at heq
        · rename_i hcond
          rw [Bool.and_eq_true] at hcond
          obtain ⟨hcan, hemp⟩ := hcond
          simp only [Option.some.injEq] at heq
          subst heq
          have hall := mem_allSquares.mp hrc
          refine ⟨fun hor => hne ⟨hor.1, hor.2⟩,
            isValidPosition_iff.mpr ⟨hall.1, hall.2.1, hall.2.2.1, hall.2.2.2⟩,
            Or.inl (isEmptySquare_iff.mp hemp)⟩
        · exact Option.noConfusion heq

/-- C2 witness: the white king on `kingBoard` may step from (4,4) onto the
enemy-occupied square (3,3). -/
theorem C2_witness :
    ¬((3 : Int) = 4 ∧ (3 : Int) = 4) ∧ isValidPosition 3 3 = true ∧
      (boardGet kingBoard 3 3 = none ∨
        ∃ p, boardGet kingBoard 4 4 = some p ∧ p.type = PieceType.king ∧
          ∃ t, boardGet kingBoard 3 3 = some t ∧ t.color ≠ p.color) :=
  C2_getValidMoves_targets kingBoard 4 4 3 3 (by decide)

theorem canAssassinMove_iff {fr fc tr tc : Int} :
    canAssassinMove fr fc tr tc = true ↔
      getQuadrant tr tc = (getQuadrant fr fc % 4) + 1 := by
  unfold canAssassinMove
  exact beq_iff_eq

/-- C6: for a board square holding an assassin, the move set is exactly the
empty squares of the clockwise-successor quadrant of the origin's quadrant,
the attack set is exactly the enemy-occupied squares of that quadrant, and
no square of any other quadrant (own or counter-clockwise included) is ever
returned by either function. -/
theorem C6_assassin_quadrants (b : Board) (row col : Int) (p : Piece)
    (hp : boardGet b row col = some p) (hpt : p.type = PieceType.assassin) :
    (∀ r c : Int,
      ((r, c) ∈ getValidMoves b row col ↔
        0 ≤ r ∧ r < 8 ∧ 0 ≤ c ∧ c < 8 ∧
          getQuadrant r c = (getQuadrant row col % 4) + 1 ∧ boardGet b r c = none)) ∧
    (∀ r c : Int,
      ((r, c) ∈ getAttackRange b row col ↔
        0 ≤ r ∧ r < 8 ∧ 0 ≤ c ∧ c < 8 ∧
          getQuadrant r c = (getQuadrant row col % 4) + 1 ∧
          ∃ t, boardGet b r c = some t ∧ t.color ≠ p.color)) ∧
    (∀ r c : Int, getQuadrant r c ≠ (getQuadrant row col % 4) + 1 →
      (r, c) ∉ getValidMoves b row col ∧ (r, c) ∉ getAttackRange b row col) := by
  obtain ⟨pt, pcol, pst⟩ := p
  dsimp only at hpt
  subst hpt
  have hmoves : ∀ r c : Int,
      ((r, c) ∈ getValidMoves b row col ↔
        0 ≤ r ∧ r < 8 ∧ 0 ≤ c ∧ c < 8 ∧
          getQuadrant r c = (getQuadrant row col % 4) + 1 ∧ boardGet b r c = none) := by
    intro r c
    unfold getValidMoves
    rw [hp]
    dsimp only [getValidMovesAux]
    constructor
    · intro h
      obtain ⟨rc, hrc, heq⟩ := List.mem_filterMap.mp h
      split at heq
      · exact Option.noConfusion heq
      · split at heq
        · rename_i hne hcond
          rw [Bool.and_eq_true] at hcond
          obtain ⟨hcan, hemp⟩ := hcond
          simp only [Option.some.injEq] at heq
          subst heq
          have hall := mem_allSquares.mp hrc
          exact ⟨hall.1, hall.2.1, hall.2.2.1, hall.2.2.2,
            canAssassinMove_iff.mp hcan, isEmptySquare_iff.mp hemp⟩
        · exact Option.noConfusion heq
    · rintro ⟨h1, h2, h3, h4, hq, hemp⟩
      apply List.mem_filterMap.mpr
      refine ⟨(r, c), mem_allSquares.mpr ⟨h1, h2, h3, h4⟩, ?_⟩
      have hne : ¬((r, c).1 = row ∧ (r, c).2 = col) := by
        rintro ⟨hr, hc⟩
        have hr' : r = row := hr
        have hc' : c = col := hc
        subst hr'
        subst hc'
        exact getQuadrant_succ_ne_self r c hq.symm
      rw [if_neg hne, if_pos]
      rw [Bool.and_eq_true]
      exact ⟨canAssassinMove_iff.mpr hq, isEmptySquare_iff.mpr hemp⟩
  have hattacks : ∀ r c : Int,
      ((r, c) ∈ getAttackRange b row col ↔
        0 ≤ r ∧ r < 8 ∧ 0 ≤ c ∧ c < 8 ∧
          getQuadrant r c = (getQuadrant row col % 4) + 1 ∧
          ∃ t, boardGet b r c = some t ∧ t.color ≠ pcol) := by
    intro r c
    unfold getAttackRange
    rw [hp]
    dsimp only
    constructor
    · intro h
      obtain ⟨rc, hrc, heq⟩ := List.mem_filterMap.mp h
      split at heq
      · exact Option.noConfusion heq
      · split at heq
        · rename_i hne hcond
          rw [Bool.and_eq_true] at hcond
          obtain ⟨hcan, hen⟩ := hcond
          simp only [Option.some.injEq] at heq
          subst heq
          have hall := mem_allSquares.mp hrc
          exact ⟨hall.1, hall.2.1, hall.2.2.1, hall.2.2.2,
            canAssassinMove_iff.mp hcan, isEnemy_iff.mp hen⟩
        · exact Option.noConfusion heq
    · rintro ⟨h1, h2, h3, h4, hq, hen⟩
      apply List.mem_filterMap.mpr
      refine ⟨(r, c), mem_allSquares.mpr ⟨h1, h2, h3, h4⟩, ?_⟩
      have hne : ¬((r, c).1 = row ∧ (r, c).2 = col) := by
        rintro ⟨hr, hc⟩
        have hr' : r = row := hr
        have hc' : c = col := hc
        subst hr'
        subst hc'
        exact getQuadrant_succ_ne_self r c hq.symm
      rw [if_neg hne, if_pos]
      rw [Bool.and_eq_true]
      exact ⟨canAssassinMove_iff.mpr hq, isEnemy_iff.mpr hen⟩
  refine ⟨hmoves, hattacks, ?_⟩
  intro r c hq
  constructor
  · intro h
    exact hq ((hmoves r c).mp h).2.2.2.2.1
  · intro h
    exact hq ((hattacks r c).mp h).2.2.2.2.1

/-- C6 witness: the white assassin of `assassinBoard` sits at (7,7)
(quadrant 4); square (0,4) lies in quadrant 1, its clockwise successor,
and is empty, so it is a legal relocation target. -/
theorem C6_witness :
    ((0 : Int), (4 : Int)) ∈ getValidMoves assassinBoard 7 7 ↔
      0 ≤ (0 : Int) ∧ (0 : Int) < 8 ∧ 0 ≤ (4 : Int) ∧ (4 : Int) < 8 ∧
        getQuadrant 0 4 = (getQuadrant 7 7 % 4) + 1 ∧ boardGet assassinBoard 0 4 = none :=
  (C6_assassin_quadrants assassinBoard 7 7
    { type := PieceType.assassin, color := PieceColor.white } (by decide) rfl).1 0 4

/-- C7: for a board square holding a spearman, the move set is exactly the
consecutive empty squares along the forward line, up to 3 plus the aura
bonus steps, stopping at and excluding the first occupied square; the
attack set is exactly the single square 3 steps forward (aura not applied)
when that square is on the board and enemy-occupied, independent of any
intervening occupancy. -/
theorem C7_spearman_line (b : Board) (row col : Int) (p : Piece) (hwf : BoardWF b)
    (hp : boardGet b row col = some p) (hpt : p.type = PieceType.spearman) :
    (∀ r c : Int,
      ((r, c) ∈ getValidMoves b row col ↔
        ∃ i : Int, 1 ≤ i ∧ i ≤ 3 + (getBardBonus b row col p.color : Int) ∧
          r = row + forwardDir p.color * i ∧ c = col ∧
          (∀ j : Int, 1 ≤ j → j ≤ i →
            isValidPosition (row + forwardDir p.color * j) col = true ∧
            boardGet b (row + forwardDir p.color * j) col = none))) ∧
    (∀ r c : Int,
      ((r, c) ∈ getAttackRange b row col ↔
        r = row + forwardDir p.color * 3 ∧ c = col ∧
          isValidPosition r c = true ∧
          ∃ t, boardGet b r c = some t ∧ t.color ≠ p.color)) := by
  obtain ⟨pt, pcol, pst⟩ := p
  dsimp only at hpt
  subst hpt
  have hbounds := boardGet_isSome_bounds hwf hp
  constructor
  · intro r c
    unfold getValidMoves
    rw [hp]
    dsimp only [getValidMovesAux]
    rw [spearMoves_mem]
    constructor
    · rintro ⟨i, h1, h2, h3, h4, h5, h6, h7⟩
      refine ⟨i, h1, by omega, h3, h4, ?_⟩
      intro j hj1 hj2
      have hvalid : isValidPosition (row + forwardDir pcol * j) col = true := by
        rw [isValidPosition_iff] at h5 ⊢
        rcases forwardDir_cases pcol with hd | hd <;> rw [hd] at h5 ⊢ <;> omega
      refine ⟨hvalid, ?_⟩
      by_cases hji : j = i
      · exact hji ▸ h6
      · exact h7 j hj1 (by omega) hvalid
    · rintro ⟨i, h1, h2, h3, h4, hall⟩
      obtain ⟨hvi, hei⟩ := hall i h1 le_rfl
      refine ⟨i, h1, by omega, h3, h4, hvi, hei, ?_⟩
      intro j hj1 hj2 _
      exact (hall j hj1 (by omega)).2
  · intro r c
    unfold getAttackRange
    rw [hp]
    dsimp only
    split
    · rename_i hcond
      rw [Bool.and_eq_true] at hcond
      obtain ⟨hval, hen⟩ := hcond
      rw [List.mem_singleton]
      constructor
      · intro heq
        obtain ⟨hr, hc⟩ := Prod.mk.injEq .. ▸ heq
        exact ⟨hr, hc, hr ▸ hc ▸ hval, hr ▸ hc ▸ isEnemy_iff.mp hen⟩
      · rintro ⟨hr, hc, _, _⟩
        rw [hr, hc]
    · rename_i hcond
      simp only [List.not_mem_nil, false_iff]
      rintro ⟨hr, hc, hval, t, ht, htc⟩
      apply hcond
      rw [Bool.and_eq_true]
      subst hr
      subst hc
      exact ⟨hval, isEnemy_iff.mpr ⟨t, ht, htc⟩⟩

/-- C7 witness: the white spearman of `spearBoard` at (6,3) reaches (3,3)
in one action across three consecutive empty forward squares. -/
theorem C7_witness :
    ((3 : Int), (3 : Int)) ∈ getValidMoves spearBoard 6 3 ↔
      ∃ i : Int, 1 ≤ i ∧ i ≤ 3 + (getBardBonus spearBoard 6 3 PieceColor.white : Int) ∧
        (3 : Int) = 6 + forwardDir PieceColor.white * i ∧ (3 : Int) = 3 ∧
        (∀ j : Int, 1 ≤ j → j ≤ i →
          isValidPosition (6 + forwardDir PieceColor.white * j) 3 = true ∧
          boardGet spearBoard (6 + forwardDir PieceColor.white * j) 3 = none) :=
  (C7_spearman_line spearBoard 6 3
    { type := PieceType.spearman, color := PieceColor.white }
    (by decide) (by decide) rfl).1 3 3

/-- C10: the two source variants compute identical attack sets everywhere,
and identical move sets wherever the examined square does not hold a mage
(the mage move rule is the only reachability difference between them). -/
theorem C10_variant_agreement :
    (∀ (b : Board) (row col : Int), getAttackRange0 b row col = getAttackRange b row col) ∧
    (∀ (b : Board) (row col : Int),
      (∀ p, boardGet b row col = some p → p.type ≠ PieceType.mage) →
      getValidMoves0 b row col = getValidMoves b row col) := by
  constructor
  · intro b row col
    rfl
  · intro b row col hmage
    unfold getValidMoves getValidMoves0
    cases hp : boardGet b row col with
    | none => rfl
    | some piece =>
      obtain ⟨pt, pcol, pst⟩ := piece
      cases pt <;> first
        | rfl
        | exact absurd rfl (hmage _ hp)

/-- C10 witness: on `spearBoard` the examined square (6,3) holds a
spearman, so the two variants return the same move list there. -/
theorem C10_witness :
    getValidMoves0 spearBoard 6 3 = getValidMoves spearBoard 6 3 :=
  C10_variant_agreement.2 spearBoard 6 3 (by
    intro p hp
    rw [show boardGet spearBoard 6 3 =
      some { type := PieceType.spearman, color := PieceColor.white } from by decide] at hp
    injection hp with h
    subst h
    decide)

/-! ### Reduction lemmas for the turn controller -/

theorem handleSquareClick_frozen (s : GameState) (row col : Int)
    (h : s.gameOver.isSome = true) :
    handleSquareClick s row col = s := by
  unfold handleSquareClick
  rw [if_pos h]

theorem handleSquareClick_capture {s : GameState} {row col fr fc : Int}
    {piece target : Piece}
    (hgo : s.gameOver = none)
    (hsel : s.selectedSquare = some (fr, fc))
    (hpiece : boardGet s.board fr fc = some piece)
    (hcolor : piece.color = s.currentPlayer)
    (hatk : (row, col) ∈ s.attackRanges)
    (htarget : boardGet s.board row col = some target)
    (htc : target.color ≠ piece.color) :
    handleSquareClick s row col =
      { board := decreaseMageCooldowns
          (if piece.type == PieceType.mage then
            boardSet (boardSet (boardSet s.board row col (some piece)) fr fc none) row col
              (some { piece with state := some 2 })
          else if piece.type == PieceType.warrior then
            boardSet (boardSet (boardSet s.board row col (some piece)) fr fc none) row col
              (some { piece with state := some ((piece.state.getD 0 + 1) % 3) })
          else boardSet (boardSet s.board row col (some piece)) fr fc none),
        selectedSquare := none,
        currentPlayer := nextPlayer s.currentPlayer,
        validMoves := [],
        attackRanges := [],
        gameOver := if target.type == PieceType.king
          then some (winnerName piece.color ++ " 승리!") else none } := by
  unfold handleSquareClick
  simp only [hgo, Option.isSome_none, Bool.false_eq_true, if_false, hsel, hpiece, hcolor,
    beq_self_eq_true, if_true,
    show hitsSquare s.attackRanges row col = true from hitsSquare_iff.mpr hatk,
    htarget, show (target.color != s.currentPlayer) = true from bne_iff_ne.mpr (hcolor ▸ htc)]

theorem handleSquareClick_move {s : GameState} {row col fr fc : Int} {piece : Piece}
    (hgo : s.gameOver = none)
    (hsel : s.selectedSquare = some (fr, fc))
    (hpiece : boardGet s.board fr fc = some piece)
    (hcolor : piece.color = s.currentPlayer)
    (hnoatk : (row, col) ∉ s.attackRanges)
    (hmove : (row, col) ∈ s.validMoves) :
    handleSquareClick s row col =
      { board := decreaseMageCooldowns
          (if piece.type == PieceType.warrior then
            boardSet (boardSet (boardSet s.board row col (some piece)) fr fc none) row col
              (some { piece with state := some ((piece.state.getD 0 + 1) % 3) })
          else boardSet (boardSet s.board row col (some piece)) fr fc none),
        selectedSquare := none,
        currentPlayer := nextPlayer s.currentPlayer,
        validMoves := [],
        attackRanges := [],
        gameOver := none } := by
  have ha : hitsSquare s.attackRanges row col = false :=
    Bool.eq_false_iff.mpr (fun h => hnoatk (hitsSquare_iff.mp h))
  unfold handleSquareClick
  simp only [hgo, Option.isSome_none, Bool.false_eq_true, if_false, hsel, hpiece, hcolor,
    beq_self_eq_true, if_true, ha,
    show hitsSquare s.validMoves row col = true from hitsSquare_iff.mpr hmove]

theorem handleSquareClick_idle_noop {s : GameState} {row col : Int}
    (hsel : s.selectedSquare = none)
    (hrej : boardGet s.board row col = none ∨
      ∃ p, boardGet s.board row col = some p ∧ p.color ≠ s.currentPlayer) :
    handleSquareClick s row col = s := by
  by_cases hgo : s.gameOver.isSome = true
  · exact handleSquareClick_frozen s row col hgo
  · unfold handleSquareClick
    rw [if_neg hgo, hsel]
    rcases hrej with hemp | ⟨p, hp, hne⟩
    · rw [hemp]
    · rw [hp]
      dsimp only
      rw [if_neg]
      rw [beq_iff_eq]
      exact hne

theorem handleSquareClick_reject {s : GameState} {row col fr fc : Int}
    (hgo : s.gameOver = none)
    (hsel : s.selectedSquare = some (fr, fc))
    (hnoatk : (row, col) ∉ s.attackRanges)
    (hnomove : (row, col) ∉ s.validMoves) :
    handleSquareClick s row col =
      { s with selectedSquare := none, validMoves := [], attackRanges := [] } := by
  have ha : hitsSquare s.attackRanges row col = false :=
    Bool.eq_false_iff.mpr (fun h => hnoatk (hitsSquare_iff.mp h))
  have hm : hitsSquare s.validMoves row col = false :=
    Bool.eq_false_iff.mpr (fun h => hnomove (hitsSquare_iff.mp h))
  unfold handleSquareClick
  simp only [hgo, Option.isSome_none, Bool.false_eq_true, if_false, hsel, ha, hm]
  cases hp : boardGet s.board fr fc with
  | none =>
    dsimp only
    rw [hgo]
  | some piece =>
    dsimp only
    split <;> rw [hgo]

/-- C1: a capture that removes a king immediately records a non-empty
terminal result naming the capturing color, and once a terminal result is
recorded every further click leaves the whole session — board, active
color, and result — unchanged, so the active color never advances again. -/
theorem C1_king_capture_freezes :
    (∀ (s : GameState) (row col : Int), s.gameOver.isSome = true →
      handleSquareClick s row col = s) ∧
    (∀ (s : GameState) (row col fr fc : Int) (piece target : Piece),
      s.gameOver = none →
      s.selectedSquare = some (fr, fc) →
      boardGet s.board fr fc = some piece →
      piece.color = s.currentPlayer →
      (row, col) ∈ s.attackRanges →
      boardGet s.board row col = some target →
      target.color ≠ piece.color →
      target.type = PieceType.king →
      (handleSquareClick s row col).gameOver = some (winnerName piece.color ++ " 승리!") ∧
      winnerName piece.color ++ " 승리!" ≠ "" ∧
      ∀ (row2 col2 : Int),
        handleSquareClick (handleSquareClick s row col) row2 col2 =
          handleSquareClick s row col) ∧
    winnerName PieceColor.white ++ " 승리!" ≠ winnerName PieceColor.black ++ " 승리!" := by
  refine ⟨handleSquareClick_frozen, ?_, by decide⟩
  intro s row col fr fc piece target hgo hsel hpiece hcolor hatk htarget htc hking
  have hres := handleSquareClick_capture hgo hsel hpiece hcolor hatk htarget htc
  have hover : (handleSquareClick s row col).gameOver =
      some (winnerName piece.color ++ " 승리!") := by
    rw [hres]
    dsimp only
    rw [if_pos (beq_iff_eq.mpr hking)]
  refine ⟨hover, by cases piece.color <;> decide, ?_⟩
  intro row2 col2
  apply handleSquareClick_frozen
  rw [hover]
  rfl

/-- C1 witness: on `kingCaptureSession` white selects its king at (4,4)
and captures the black king at (4,5); the result is recorded and a later
click at (2,2) changes nothing. -/
theorem C1_witness :
    (handleSquareClick (handleSquareClick kingCaptureSession 4 4) 4 5).gameOver =
      some (winnerName PieceColor.white ++ " 승리!") ∧
    handleSquareClick
        (handleSquareClick (handleSquareClick kingCaptureSession 4 4) 4 5) 2 2 =
      handleSquareClick (handleSquareClick kingCaptureSession 4 4) 4 5 :=
  have h := C1_king_capture_freezes.2.1 (handleSquareClick kingCaptureSession 4 4) 4 5 4 4
    { type := PieceType.king, color := PieceColor.white }
    { type := PieceType.king, color := PieceColor.black }
    (by decide) (by decide) (by decide) (by decide) (by decide) (by decide)
    (by decide) (by decide)
  ⟨h.1, h.2.2 2 2⟩

/-- C9: while nothing is selected, clicking an empty square or an
enemy-held square changes nothing at all; while a square is selected,
clicking a square in neither cached list clears the selection and caches
and leaves board, active color, and result unchanged. -/
theorem C9_rejected_clicks :
    (∀ (s : GameState) (row col : Int),
      s.selectedSquare = none →
      (boardGet s.board row col = none ∨
        ∃ p, boardGet s.board row col = some p ∧ p.color ≠ s.currentPlayer) →
      handleSquareClick s row col = s) ∧
    (∀ (s : GameState) (row col fr fc : Int),
      s.gameOver = none →
      s.selectedSquare = some (fr, fc) →
      (row, col) ∉ s.validMoves →
      (row, col) ∉ s.attackRanges →
      handleSquareClick s row col =
        { s with selectedSquare := none, validMoves := [], attackRanges := [] }) :=
  ⟨fun _ _ _ hsel hrej => handleSquareClick_idle_noop hsel hrej,
   fun _ _ _ _ _ hgo hsel hnomove hnoatk => handleSquareClick_reject hgo hsel hnoatk hnomove⟩

/-- C9 witness: on `mageSession` an idle click on the empty square (0,0) is
a no-op, and after selecting the mage at (4,4) a click on (7,7) — in
neither cached list — merely clears the selection. -/
theorem C9_witness :
    handleSquareClick mageSession 0 0 = mageSession ∧
    handleSquareClick (handleSquareClick mageSession 4 4) 7 7 =
      { handleSquareClick mageSession 4 4 with
          selectedSquare := none, validMoves := [], attackRanges := [] } :=
  ⟨C9_rejected_clicks.1 mageSession 0 0 (by decide) (Or.inl (by decide)),
   C9_rejected_clicks.2 (handleSquareClick mageSession 4 4) 7 7 4 4
     (by decide) (by decide) (by decide) (by decide)⟩

theorem handleSquareClick0_capture {s : GameState} {row col fr fc : Int}
    {piece target : Piece}
    (hgo : s.gameOver = none)
    (hsel : s.selectedSquare = some (fr, fc))
    (hpiece : boardGet s.board fr fc = some piece)
    (hcolor : piece.color = s.currentPlayer)
    (hatk : (row, col) ∈ s.attackRanges)
    (htarget : boardGet s.board row col = some target)
    (htc : target.color ≠ piece.color) :
    handleSquareClick0 s row col =
      { board :=
          (if piece.type == PieceType.mage then
            boardSet (boardSet (boardSet (boardSet s.board row col (some piece)) fr fc none)
              fr fc (some { piece with state := some 2 })) row col none
          else if piece.type == PieceType.warrior then
            boardSet (boardSet (boardSet s.board row col (some piece)) fr fc none) row col
              (some { piece with state := some ((piece.state.getD 0 + 1) % 3) })
          else boardSet (boardSet s.board row col (some piece)) fr fc none),
        selectedSquare := none,
        currentPlayer := nextPlayer s.currentPlayer,
        validMoves := [],
        attackRanges := [],
        gameOver := if target.type == PieceType.king
          then some (winnerName piece.color ++ " 승리!") else none } := by
  unfold handleSquareClick0
  simp only [hgo, Option.isSome_none, Bool.false_eq_true, if_false, hsel, hpiece, hcolor,
    beq_self_eq_true, if_true,
    show hitsSquare s.attackRanges row col = true from hitsSquare_iff.mpr hatk,
    htarget, show (target.color != s.currentPlayer) = true from bne_iff_ne.mpr (hcolor ▸ htc)]

theorem decayCell_mage_two {p : Piece} (h : p.type = PieceType.mage) :
    decayCell (some { p with state := some 2 }) = some { p with state := some 1 } := by
  simp [decayCell, h]

/-- C3 counterexample: in `part_000`, the white mage's capture of the black
defender at (4,0) is completed (the captured piece is gone and the turn
flips), but the mage does not end on the target square: it stays at its
origin (4,4) with cooldown 2 while the target square is left empty. -/
theorem C3_counterexample :
    boardGet (handleSquareClick0 (handleSquareClick0 mageSession 4 4) 4 0).board 4 0 = none ∧
    boardGet (handleSquareClick0 (handleSquareClick0 mageSession 4 4) 4 0).board 4 4 =
      some { type := PieceType.mage, color := PieceColor.white, state := some 2 } ∧
    (handleSquareClick0 (handleSquareClick0 mageSession 4 4) 4 0).currentPlayer =
      PieceColor.black := by
  decide

/-- C3 (amended): in `part_001` every completed capture relocates the
acting piece onto the target square and empties the origin; in `part_000`
the same holds for every non-mage capture, while a mage capture leaves the
mage at its origin with cooldown 2 and empties the target square.  In all
three cases the captured piece is discarded — it is never left in place. -/
theorem C3_capture_disposition :
    (∀ (s : GameState) (row col fr fc : Int) (piece target : Piece),
      BoardWF s.board →
      s.gameOver = none → s.selectedSquare = some (fr, fc) →
      boardGet s.board fr fc = some piece → piece.color = s.currentPlayer →
      (row, col) ∈ s.attackRanges → boardGet s.board row col = some target →
      target.color ≠ piece.color →
      (∃ st, boardGet (handleSquareClick s row col).board row col =
          some { type := piece.type, color := piece.color, state := st }) ∧
        boardGet (handleSquareClick s row col).board fr fc = none) ∧
    (∀ (s : GameState) (row col fr fc : Int) (piece target : Piece),
      BoardWF s.board →
      s.gameOver = none → s.selectedSquare = some (fr, fc) →
      boardGet s.board fr fc = some piece → piece.color = s.currentPlayer →
      (row, col) ∈ s.attackRanges → boardGet s.board row col = some target →
      target.color ≠ piece.color → piece.type ≠ PieceType.mage →
      (∃ st, boardGet (handleSquareClick0 s row col).board row col =
          some { type := piece.type, color := piece.color, state := st }) ∧
        boardGet (handleSquareClick0 s row col).board fr fc = none) ∧
    (∀ (s : GameState) (row col fr fc : Int) (piece target : Piece),
      BoardWF s.board →
      s.gameOver = none → s.selectedSquare = some (fr, fc) →
      boardGet s.board fr fc = some piece → piece.color = s.currentPlayer →
      (row, col) ∈ s.attackRanges → boardGet s.board row col = some target →
      target.color ≠ piece.color → piece.type = PieceType.mage →
      boardGet (handleSquareClick0 s row col).board fr fc =
        some { piece with state := some 2 } ∧
      boardGet (handleSquareClick0 s row col).board row col = none) := by
  refine ⟨?_, ?_, ?_⟩
  · intro s row col fr fc piece target hwf hgo hsel hpiece hcolor hatk htarget htc
    obtain ⟨hr0, hr8, hc0, hc8⟩ := boardGet_isSome_bounds hwf htarget
    obtain ⟨hf0, hf8, hg0, hg8⟩ := boardGet_isSome_bounds hwf hpiece
    have hne : ¬(fr = row ∧ fc = col) := by
      rintro ⟨h1, h2⟩
      rw [h1, h2, htarget] at hpiece
      injection hpiece with h3
      exact htc (by rw [h3])
    have hne2 : ¬(row = fr ∧ col = fc) := fun hh => hne ⟨hh.1.symm, hh.2.symm⟩
    have hwf1 : BoardWF (boardSet s.board row col (some piece)) :=
      boardWF_boardSet _ _ _ hwf
    have hwf2 : BoardWF (boardSet (boardSet s.board row col (some piece)) fr fc none) :=
      boardWF_boardSet _ _ _ hwf1
    rw [handleSquareClick_capture hgo hsel hpiece hcolor hatk htarget htc]
    dsimp only
    by_cases hmage : (piece.type == PieceType.mage) = true
    · rw [if_pos hmage]
      have hm : piece.type = PieceType.mage := beq_iff_eq.mp hmage
      constructor
      · refine ⟨some 1, ?_⟩
        rw [boardGet_decreaseMageCooldowns,
          boardGet_boardSet_self _ hwf2 hr0 hr8 hc0 hc8,
          decayCell_mage_two hm]
      · rw [boardGet_decreaseMageCooldowns,
          boardGet_boardSet_ne _ _ hne,
          boardGet_boardSet_self _ hwf1 hf0 hf8 hg0 hg8]
        rfl
    · rw [if_neg hmage]
      have hnm : piece.type ≠ PieceType.mage := by
        intro hh
        apply hmage
        rw [hh]
        rfl
      by_cases hwar : (piece.type == PieceType.warrior) = true
      · rw [if_pos hwar]
        constructor
        · refine ⟨some ((piece.state.getD 0 + 1) % 3), ?_⟩
          rw [boardGet_decreaseMageCooldowns,
            boardGet_boardSet_self _ hwf2 hr0 hr8 hc0 hc8]
          exact decayCell_of_ne_mage hnm
        · rw [boardGet_decreaseMageCooldowns,
            boardGet_boardSet_ne _ _ hne,
            boardGet_boardSet_self _ hwf1 hf0 hf8 hg0 hg8]
          rfl
      · rw [if_neg hwar]
        constructor
        · refine ⟨piece.state, ?_⟩
          rw [boardGet_decreaseMageCooldowns,
            boardGet_boardSet_ne _ _ hne2,
            boardGet_boardSet_self _ hwf hr0 hr8 hc0 hc8,
            decayCell_of_ne_mage hnm]
        · rw [boardGet_decreaseMageCooldowns,
            boardGet_boardSet_self _ hwf1 hf0 hf8 hg0 hg8]
          rfl
  · intro s row col fr fc piece target hwf hgo hsel hpiece hcolor hatk htarget htc hnm
    obtain ⟨hr0, hr8, hc0, hc8⟩ := boardGet_isSome_bounds hwf htarget
    obtain ⟨hf0, hf8, hg0, hg8⟩ := boardGet_isSome_bounds hwf hpiece
    have hne : ¬(fr = row ∧ fc = col) := by
      rintro ⟨h1, h2⟩
      rw [h1, h2, htarget] at hpiece
      injection hpiece with h3
      exact htc (by rw [h3])
    have hne2 : ¬(row = fr ∧ col = fc) := fun hh => hne ⟨hh.1.symm, hh.2.symm⟩
    have hwf1 : BoardWF (boardSet s.board row col (some piece)) :=
      boardWF_boardSet _ _ _ hwf
    have hmage : ¬((piece.type == PieceType.mage) = true) := by
      intro hh
      exact hnm (beq_iff_eq.mp hh)
    rw [handleSquareClick0_capture hgo hsel hpiece hcolor hatk htarget htc]
    dsimp only
    rw [if_neg hmage]
    by_cases hwar : (piece.type == PieceType.warrior) = true
    · rw [if_pos hwar]
      constructor
      · refine ⟨some ((piece.state.getD 0 + 1) % 3), ?_⟩
        rw [boardGet_boardSet_self _
          (boardWF_boardSet _ _ _ hwf1) hr0 hr8 hc0 hc8]
      · rw [boardGet_boardSet_ne _ _ hne,
          boardGet_boardSet_self _ hwf1 hf0 hf8 hg0 hg8]
    · rw [if_neg hwar]
      constructor
      · refine ⟨piece.state, ?_⟩
        rw [boardGet_boardSet_ne _ _ hne2,
          boardGet_boardSet_self _ hwf hr0 hr8 hc0 hc8]
      · rw [boardGet_boardSet_self _ hwf1 hf0 hf8 hg0 hg8]
  · intro s row col fr fc piece target hwf hgo hsel hpiece hcolor hatk htarget htc hm
    obtain ⟨hr0, hr8, hc0, hc8⟩ := boardGet_isSome_bounds hwf htarget
    obtain ⟨hf0, hf8, hg0, hg8⟩ := boardGet_isSome_bounds hwf hpiece
    have hne : ¬(fr = row ∧ fc = col) := by
      rintro ⟨h1, h2⟩
      rw [h1, h2, htarget] at hpiece
      injection hpiece with h3
      exact htc (by rw [h3])
    have hne2 : ¬(row = fr ∧ col = fc) := fun hh => hne ⟨hh.1.symm, hh.2.symm⟩
    have hwf1 : BoardWF (boardSet s.board row col (some piece)) :=
      boardWF_boardSet _ _ _ hwf
    have hwf2 : BoardWF (boardSet (boardSet s.board row col (some piece)) fr fc none) :=
      boardWF_boardSet _ _ _ hwf1
    rw [handleSquareClick0_capture hgo hsel hpiece hcolor hatk htarget htc]
    dsimp only
    rw [if_pos (beq_iff_eq.mpr hm)]
    constructor
    · rw [boardGet_boardSet_ne _ _ hne,
        boardGet_boardSet_self _ hwf2 hf0 hf8 hg0 hg8]
    · rw [boardGet_boardSet_self _
        (boardWF_boardSet _ _ _ hwf2) hr0 hr8 hc0 hc8]

/-- C3 witness: in `part_001`, white's king capture of the black king on
`kingCaptureSession` relocates the king onto (4,5) and empties (4,4). -/
theorem C3_witness :
    (∃ st, boardGet
        (handleSquareClick (handleSquareClick kingCaptureSession 4 4) 4 5).board 4 5 =
        some { type := PieceType.king, color := PieceColor.white, state := st }) ∧
    boardGet (handleSquareClick (handleSquareClick kingCaptureSession 4 4) 4 5).board 4 4 =
      none :=
  C3_capture_disposition.1 (handleSquareClick kingCaptureSession 4 4) 4 5 4 4
    { type := PieceType.king, color := PieceColor.white }
    { type := PieceType.king, color := PieceColor.black }
    (by decide) (by decide) (by decide) (by decide) (by decide) (by decide)
    (by decide) (by decide)

/-- Any square other than the cached selection origin and the clicked
square is, after a click, either untouched or merely passed through the
cooldown decay. -/
theorem handleSquareClick_frame (s : GameState) (row col qr qc : Int)
    (hselq : s.selectedSquare ≠ some (qr, qc)) (hclick : ¬(qr = row ∧ qc = col)) :
    boardGet (handleSquareClick s row col).board qr qc =
      decayCell (boardGet s.board qr qc) ∨
    boardGet (handleSquareClick s row col).board qr qc = boardGet s.board qr qc := by
  by_cases hgo : s.gameOver.isSome = true
  · right
    rw [handleSquareClick_frozen s row col hgo]
  · have hgo' : s.gameOver = none := Option.not_isSome_iff_eq_none.mp hgo
    cases hselv : s.selectedSquare with
    | none =>
      right
      unfold handleSquareClick
      rw [if_neg hgo, hselv]
      cases hp : boardGet s.board row col with
      | none => rfl
      | some p =>
        dsimp only
        split <;> rfl
    | some fsq =>
      obtain ⟨fr, fc⟩ := fsq
      have hne : ¬(qr = fr ∧ qc = fc) := by
        rintro ⟨h1, h2⟩
        exact hselq (by rw [hselv, h1, h2])
      cases hp : boardGet s.board fr fc with
      | none =>
        right
        unfold handleSquareClick
        rw [if_neg hgo, hselv]
        dsimp only
        rw [hp]
      | some piece =>
        by_cases hc : (piece.color == s.currentPlayer) = true
        · by_cases hat : hitsSquare s.attackRanges row col = true
          · cases ht : boardGet s.board row col with
            | none =>
              right
              unfold handleSquareClick
              rw [if_neg hgo, hselv]
              dsimp only
              rw [hp]
              dsimp only
              rw [if_pos hc, if_pos hat, ht]
            | some target =>
              by_cases htc : (target.color != piece.color) = true
              · left
                rw [handleSquareClick_capture hgo' hselv hp (beq_iff_eq.mp hc)
                  (hitsSquare_iff.mp hat) ht (bne_iff_ne.mp htc)]
                dsimp only
                rw [boardGet_decreaseMageCooldowns]
                congr 1
                by_cases hm : (piece.type == PieceType.mage) = true
                · rw [if_pos hm, boardGet_boardSet_ne _ _ hclick,
                    boardGet_boardSet_ne _ _ hne, boardGet_boardSet_ne _ _ hclick]
                · rw [if_neg hm]
                  by_cases hw : (piece.type == PieceType.warrior) = true
                  · rw [if_pos hw, boardGet_boardSet_ne _ _ hclick,
                      boardGet_boardSet_ne _ _ hne, boardGet_boardSet_ne _ _ hclick]
                  · rw [if_neg hw, boardGet_boardSet_ne _ _ hne,
                      boardGet_boardSet_ne _ _ hclick]
              · right
                unfold handleSquareClick
                rw [if_neg hgo, hselv]
                dsimp only
                rw [hp]
                dsimp only
                rw [if_pos hc, if_pos hat, ht]
                dsimp only
                rw [if_neg htc]
          · by_cases hmv : hitsSquare s.validMoves row col = true
            · left
              rw [handleSquareClick_move hgo' hselv hp (beq_iff_eq.mp hc)
                (fun hmem => hat (hitsSquare_iff.mpr hmem)) (hitsSquare_iff.mp hmv)]
              dsimp only
              rw [boardGet_decreaseMageCooldowns]
              congr 1
              by_cases hw : (piece.type == PieceType.warrior) = true
              · rw [if_pos hw, boardGet_boardSet_ne _ _ hclick,
                  boardGet_boardSet_ne _ _ hne, boardGet_boardSet_ne _ _ hclick]
              · rw [if_neg hw, boardGet_boardSet_ne _ _ hne,
                  boardGet_boardSet_ne _ _ hclick]
            · right
              rw [handleSquareClick_reject hgo' hselv
                (fun hmem => hat (hitsSquare_iff.mpr hmem))
                (fun hmem => hmv (hitsSquare_iff.mpr hmem))]
        · right
          unfold handleSquareClick
          rw [if_neg hgo, hselv]
          dsimp only
          rw [hp]
          dsimp only
          rw [if_neg hc]

/-- C5: every completed action by a warrior — capture or quiet move —
leaves the warrior on the destination square with its stance incremented
by exactly one modulo 3, and no click ever changes the stance of a warrior
that is not the acting piece. -/
theorem C5_warrior_stance :
    (∀ (s : GameState) (row col fr fc : Int) (piece target : Piece),
      BoardWF s.board → s.gameOver = none → s.selectedSquare = some (fr, fc) →
      boardGet s.board fr fc = some piece → piece.color = s.currentPlayer →
      (row, col) ∈ s.attackRanges → boardGet s.board row col = some target →
      target.color ≠ piece.color → piece.type = PieceType.warrior →
      boardGet (handleSquareClick s row col).board row col =
        some { piece with state := some ((piece.state.getD 0 + 1) % 3) }) ∧
    (∀ (s : GameState) (row col fr fc : Int) (piece : Piece),
      BoardWF s.board → s.gameOver = none → s.selectedSquare = some (fr, fc) →
      boardGet s.board fr fc = some piece → piece.color = s.currentPlayer →
      (row, col) ∉ s.attackRanges → (row, col) ∈ s.validMoves →
      isValidPosition row col = true → piece.type = PieceType.warrior →
      boardGet (handleSquareClick s row col).board row col =
        some { piece with state := some ((piece.state.getD 0 + 1) % 3) }) ∧
    (∀ (s : GameState) (row col qr qc : Int) (w : Piece),
      boardGet s.board qr qc = some w → w.type = PieceType.warrior →
      s.selectedSquare ≠ some (qr, qc) → ¬(qr = row ∧ qc = col) →
      boardGet (handleSquareClick s row col).board qr qc = some w) := by
  refine ⟨?_, ?_, ?_⟩
  · intro s row col fr fc piece target hwf hgo hsel hpiece hcolor hatk htarget htc hwt
    obtain ⟨hr0, hr8, hc0, hc8⟩ := boardGet_isSome_bounds hwf htarget
    have hwf2 : BoardWF (boardSet (boardSet s.board row col (some piece)) fr fc none) :=
      boardWF_boardSet _ _ _ (boardWF_boardSet _ _ _ hwf)
    have hnm : piece.type ≠ PieceType.mage := by
      rw [hwt]
      intro hh
      exact PieceType.noConfusion hh
    rw [handleSquareClick_capture hgo hsel hpiece hcolor hatk htarget htc]
    dsimp only
    rw [if_neg (by rw [hwt]; intro hh; simp at hh), if_pos (beq_iff_eq.mpr hwt)]
    rw [boardGet_decreaseMageCooldowns,
      boardGet_boardSet_self _ hwf2 hr0 hr8 hc0 hc8]
    exact decayCell_of_ne_mage hnm
  · intro s row col fr fc piece hwf hgo hsel hpiece hcolor hnoatk hmove hvalid hwt
    obtain ⟨hr0, hr8, hc0, hc8⟩ := isValidPosition_iff.mp hvalid
    have hwf2 : BoardWF (boardSet (boardSet s.board row col (some piece)) fr fc none) :=
      boardWF_boardSet _ _ _ (boardWF_boardSet _ _ _ hwf)
    have hnm : piece.type ≠ PieceType.mage := by
      rw [hwt]
      intro hh
      exact PieceType.noConfusion hh
    rw [handleSquareClick_move hgo hsel hpiece hcolor hnoatk hmove]
    dsimp only
    rw [if_pos (beq_iff_eq.mpr hwt)]
    rw [boardGet_decreaseMageCooldowns,
      boardGet_boardSet_self _ hwf2 hr0 hr8 hc0 hc8]
    exact decayCell_of_ne_mage hnm
  · intro s row col qr qc w hw hwt hselq hclick
    rcases handleSquareClick_frame s row col qr qc hselq hclick with hfr | hfr
    · rw [hfr, hw]
      exact decayCell_of_ne_mage (by rw [hwt]; intro hh; exact PieceType.noConfusion hh)
    · rw [hfr, hw]

/-- C5 witness: the white warrior of `warriorSession` (stance 1) captures
the black defender at (4,5); after the action its stance is 2. -/
theorem C5_witness :
    boardGet (handleSquareClick (handleSquareClick warriorSession 4 4) 4 5).board 4 5 =
      some { type := PieceType.warrior, color := PieceColor.white,
             state := some (((some 1 : Option Nat).getD 0 + 1) % 3) } :=
  C5_warrior_stance.1 (handleSquareClick warriorSession 4 4) 4 5 4 4
    { type := PieceType.warrior, color := PieceColor.white, state := some 1 }
    { type := PieceType.defender, color := PieceColor.black }
    (by decide) (by decide) (by decide) (by decide) (by decide) (by decide)
    (by decide) (by decide) (by decide)

/-- C4 counterexample: on `mageSession` the white mage (cooldown 0)
captures the black defender at (4,0); immediately after the action the
mage's cooldown is 1, not 2 — the same-turn decay pass has already
decremented the freshly set value — although the active color has flipped
as claimed. -/
theorem C4_counterexample :
    boardGet (handleSquareClick (handleSquareClick mageSession 4 4) 4 0).board 4 0 ≠
      some { type := PieceType.mage, color := PieceColor.white, state := some 2 } ∧
    boardGet (handleSquareClick (handleSquareClick mageSession 4 4) 4 0).board 4 0 =
      some { type := PieceType.mage, color := PieceColor.white, state := some 1 } ∧
    (handleSquareClick (handleSquareClick mageSession 4 4) 4 0).currentPlayer =
      PieceColor.black := by
  decide

/-- C4 (amended): when a mage with cooldown 0 captures an enemy piece, the
capture writes cooldown 2 and then the board-wide decay pass runs over the
resulting board (every mage with positive cooldown loses one point), so
immediately after the action the acting mage's cooldown equals 1 and the
active color has flipped. -/
theorem C4_mage_capture_cooldown :
    ∀ (s : GameState) (row col fr fc : Int) (piece target : Piece),
      BoardWF s.board → s.gameOver = none → s.selectedSquare = some (fr, fc) →
      boardGet s.board fr fc = some piece → piece.color = s.currentPlayer →
      (row, col) ∈ s.attackRanges → boardGet s.board row col = some target →
      target.color ≠ piece.color → piece.type = PieceType.mage →
      piece.state = some 0 →
      (handleSquareClick s row col).board =
        decreaseMageCooldowns
          (boardSet (boardSet (boardSet s.board row col (some piece)) fr fc none) row col
            (some { piece with state := some 2 })) ∧
      boardGet (handleSquareClick s row col).board row col =
        some { piece with state := some 1 } ∧
      (handleSquareClick s row col).currentPlayer = nextPlayer s.currentPlayer := by
  intro s row col fr fc piece target hwf hgo hsel hpiece hcolor hatk htarget htc hm hst
  obtain ⟨hr0, hr8, hc0, hc8⟩ := boardGet_isSome_bounds hwf htarget
  have hwf2 : BoardWF (boardSet (boardSet s.board row col (some piece)) fr fc none) :=
    boardWF_boardSet _ _ _ (boardWF_boardSet _ _ _ hwf)
  rw [handleSquareClick_capture hgo hsel hpiece hcolor hatk htarget htc]
  dsimp only
  rw [if_pos (beq_iff_eq.mpr hm)]
  refine ⟨rfl, ?_, rfl⟩
  rw [boardGet_decreaseMageCooldowns,
    boardGet_boardSet_self _ hwf2 hr0 hr8 hc0 hc8,
    decayCell_mage_two hm]

/-- C4 witness: the concrete mage capture on `mageSession`, instantiating
the amended cooldown bookkeeping. -/
theorem C4_witness :
    boardGet (handleSquareClick (handleSquareClick mageSession 4 4) 4 0).board 4 0 =
      some { type := PieceType.mage, color := PieceColor.white, state := some 1 } ∧
    (handleSquareClick (handleSquareClick mageSession 4 4) 4 0).currentPlayer =
      nextPlayer PieceColor.white :=
  have h := C4_mage_capture_cooldown (handleSquareClick mageSession 4 4) 4 0 4 4
    { type := PieceType.mage, color := PieceColor.white, state := some 0 }
    { type := PieceType.defender, color := PieceColor.black }
    (by decide) (by decide) (by decide) (by decide) (by decide) (by decide)
    (by decide) (by decide) (by decide) (by decide)
  ⟨h.2.1, h.2.2⟩

theorem getBardBonus_eq_one_iff {b : Board} {row col : Int} {color : PieceColor}
    (hwf : BoardWF b) :
    getBardBonus b row col color = 1 ↔
      ∃ dr dc : Int, -1 ≤ dr ∧ dr ≤ 1 ∧ -1 ≤ dc ∧ dc ≤ 1 ∧
        ∃ p, boardGet b (row + dr) (col + dc) = some p ∧
          p.type = PieceType.bard ∧ p.color = color := by
  unfold getBardBonus
  split
  · rename_i hany
    simp only [List.any_eq_true] at hany
    obtain ⟨r, hr, c, hc, hp⟩ := hany
    rw [mem_intRange] at hr hc
    constructor
    · intro _
      refine ⟨r - row, c - col, by omega, by omega, by omega, by omega, ?_⟩
      cases hg : boardGet b r c with
      | none => rw [hg] at hp; exact Bool.noConfusion hp
      | some p =>
        rw [hg] at hp
        rw [Bool.and_eq_true, beq_iff_eq, beq_iff_eq] at hp
        refine ⟨p, ?_, hp.1, hp.2⟩
        rw [show row + (r - row) = r by ring, show col + (c - col) = c by ring]
        exact hg
    · intro _
      rfl
  · rename_i hany
    constructor
    · intro h
      exact absurd h (by omega)
    · rintro ⟨dr, dc, h1, h2, h3, h4, p, hg, hbard, hcolor⟩
      exfalso
      apply hany
      simp only [List.any_eq_true]
      obtain ⟨hb0, hb8, hd0, hd8⟩ := boardGet_isSome_bounds hwf hg
      refine ⟨row + dr, ?_, col + dc, ?_, ?_⟩
      · rw [mem_intRange]
        omega
      · rw [mem_intRange]
        omega
      · rw [hg, Bool.and_eq_true, beq_iff_eq, beq_iff_eq]
        exact ⟨hbard, hcolor⟩

theorem getBardBonus_zero_or_one (b : Board) (row col : Int) (color : PieceColor) :
    getBardBonus b row col color = 0 ∨ getBardBonus b row col color = 1 := by
  unfold getBardBonus
  split
  · right
    rfl
  · left
    rfl

theorem getValidMovesAux_bonus_independent (b : Board) (row col : Int) (piece : Piece)
    (bonus1 bonus2 : Nat)
    (h : piece.type = PieceType.king ∨ piece.type = PieceType.defender ∨
      piece.type = PieceType.archer ∨ piece.type = PieceType.assassin ∨
      (piece.type = PieceType.warrior ∧ piece.state ≠ some 0) ∨
      (piece.type = PieceType.mage ∧ statePos piece.state = false)) :
    getValidMovesAux b row col piece bonus1 = getValidMovesAux b row col piece bonus2 := by
  unfold getValidMovesAux
  rcases h with hpt | hpt | hpt | hpt | ⟨hpt, hst⟩ | ⟨hpt, hst⟩ <;> rw [hpt]
  · dsimp only
    rw [if_neg hst, if_neg hst]
  · dsimp only
    rw [hst]
    simp only [Bool.false_eq_true, if_false]

theorem enemyArea_congr {b b2 : Board} {row col : Int} {range : Nat} {pc : PieceColor}
    (h : ∀ x y : Int, isEnemy b2 x y pc = isEnemy b x y pc) :
    enemyArea b2 row col range pc = enemyArea b row col range pc := by
  unfold enemyArea
  apply List.filterMap_congr
  intro rc _
  simp only [h]

theorem getAttackRange_friendly_add {b : Board} {row col qr qc : Int}
    {piece bd : Piece}
    (hwf : BoardWF b)
    (hq0 : 0 ≤ qr) (hq8 : qr < 8) (hd0 : 0 ≤ qc) (hd8 : qc < 8)
    (hpiece : boardGet b row col = some piece)
    (hqempty : boardGet b qr qc = none)
    (hneq : ¬(qr = row ∧ qc = col))
    (hbdcolor : bd.color = piece.color) :
    getAttackRange (boardSet b qr qc (some bd)) row col = getAttackRange b row col := by
  have hne' : ¬(row = qr ∧ col = qc) := fun hh => hneq ⟨hh.1.symm, hh.2.symm⟩
  have horigin : boardGet (boardSet b qr qc (some bd)) row col = some piece := by
    rw [boardGet_boardSet_ne _ _ hne']
    exact hpiece
  have hEnemy : ∀ x y : Int,
      isEnemy (boardSet b qr qc (some bd)) x y piece.color = isEnemy b x y piece.color := by
    intro x y
    by_cases hxy : x = qr ∧ y = qc
    · obtain ⟨hx, hy⟩ := hxy
      subst hx
      subst hy
      unfold isEnemy
      rw [boardGet_boardSet_self _ hwf hq0 hq8 hd0 hd8, hqempty]
      dsimp only
      rw [hbdcolor, bne_self_eq_false]
    · unfold isEnemy
      rw [boardGet_boardSet_ne _ _ hxy]
  unfold getAttackRange
  rw [horigin, hpiece]
  dsimp only
  cases hpt : piece.type
  case king =>
    dsimp only
    exact enemyArea_congr hEnemy
  case warrior =>
    dsimp only
    split_ifs
    · exact enemyArea_congr hEnemy
    · exact enemyArea_congr hEnemy
    · rfl
  case defender =>
    dsimp only
    simp only [hEnemy]
  case paladin =>
    dsimp only
    exact enemyArea_congr hEnemy
  case mage =>
    dsimp only
    simp only [hEnemy]
  case spearman =>
    dsimp only
    simp only [hEnemy]
  case archer =>
    dsimp only
    simp only [hEnemy]
  case bard => rfl
  case assassin =>
    dsimp only
    simp only [hEnemy]

/-- C8: the aura bonus is 1 exactly when some square of the 3×3
neighborhood centered on the position (the position itself included) holds
a bard of the given color, and 0 otherwise; the bonus changes only the
movement radii of the warrior in stance 0, the paladin, the spearman, the
bard, and the mage while on cooldown (for every other kind the move set is
the same under any bonus, and for each of the five aura kinds a larger
bonus demonstrably enlarges the move set); and every kind's attack set is
independent of the aura: adding a friendly bard next to a piece — which
can raise its bonus — never changes its attack set. -/
theorem C8_aura_bonus :
    (∀ (b : Board) (row col : Int) (color : PieceColor), BoardWF b →
      (getBardBonus b row col color = 1 ↔
        ∃ dr dc : Int, -1 ≤ dr ∧ dr ≤ 1 ∧ -1 ≤ dc ∧ dc ≤ 1 ∧
          ∃ p, boardGet b (row + dr) (col + dc) = some p ∧
            p.type = PieceType.bard ∧ p.color = color) ∧
      (getBardBonus b row col color = 0 ∨ getBardBonus b row col color = 1)) ∧
    (∀ (b : Board) (row col : Int) (piece : Piece) (bonus1 bonus2 : Nat),
      (piece.type = PieceType.king ∨ piece.type = PieceType.defender ∨
        piece.type = PieceType.archer ∨ piece.type = PieceType.assassin ∨
        (piece.type = PieceType.warrior ∧ piece.state ≠ some 0) ∨
        (piece.type = PieceType.mage ∧ statePos piece.state = false)) →
      getValidMovesAux b row col piece bonus1 = getValidMovesAux b row col piece bonus2) ∧
    (getValidMovesAux emptyBoard 4 4
        { type := PieceType.warrior, color := PieceColor.white, state := some 0 } 1 ≠
      getValidMovesAux emptyBoard 4 4
        { type := PieceType.warrior, color := PieceColor.white, state := some 0 } 0 ∧
     getValidMovesAux emptyBoard 4 4
        { type := PieceType.paladin, color := PieceColor.white } 1 ≠
      getValidMovesAux emptyBoard 4 4
        { type := PieceType.paladin, color := PieceColor.white } 0 ∧
     getValidMovesAux emptyBoard 4 4
        { type := PieceType.spearman, color := PieceColor.white } 1 ≠
      getValidMovesAux emptyBoard 4 4
        { type := PieceType.spearman, color := PieceColor.white } 0 ∧
     getValidMovesAux emptyBoard 4 4
        { type := PieceType.bard, color := PieceColor.white } 1 ≠
      getValidMovesAux emptyBoard 4 4
        { type := PieceType.bard, color := PieceColor.white } 0 ∧
     getValidMovesAux emptyBoard 4 4
        { type := PieceType.mage, color := PieceColor.white, state := some 1 } 1 ≠
      getValidMovesAux emptyBoard 4 4
        { type := PieceType.mage, color := PieceColor.white, state := some 1 } 0) ∧
    (∀ (b : Board) (row col qr qc : Int) (piece bd : Piece),
      BoardWF b → 0 ≤ qr → qr < 8 → 0 ≤ qc → qc < 8 →
      boardGet b row col = some piece → boardGet b qr qc = none →
      ¬(qr = row ∧ qc = col) → bd.type = PieceType.bard → bd.color = piece.color →
      getAttackRange (boardSet b qr qc (some bd)) row col = getAttackRange b row col) := by
  refine ⟨?_, getValidMovesAux_bonus_independent, by decide, ?_⟩
  · intro b row col color hwf
    exact ⟨getBardBonus_eq_one_iff hwf, getBardBonus_zero_or_one b row col color⟩
  · intro b row col qr qc piece bd hwf hq0 hq8 hd0 hd8 hpiece hqempty hneq _ hbdcolor
    exact getAttackRange_friendly_add hwf hq0 hq8 hd0 hd8 hpiece hqempty hneq hbdcolor

/-- C8 witness: adding a friendly bard at (3,3), inside the white mage's
3×3 neighborhood on `mageBoard`, leaves the mage's attack set unchanged. -/
theorem C8_witness :
    getAttackRange (boardSet mageBoard 3 3
      (some { type := PieceType.bard, color := PieceColor.white })) 4 4 =
    getAttackRange mageBoard 4 4 :=
  C8_aura_bonus.2.2.2 mageBoard 4 4 3 3
    { type := PieceType.mage, color := PieceColor.white, state := some 0 }
    { type := PieceType.bard, color := PieceColor.white }
    (by decide) (by decide) (by decide) (by decide) (by decide) (by decide)
    (by decide) (by decide) (by decide) (by decide)
